import Mathlib

/-! Verification development for the klijentnetlify peer-to-peer file
transfer client. The definitions below are a shallow embedding of the
TypeScript sources: `FileChunker` and `FileDigester` from
`src/services/files.ts`, the `Peer` connection session and its embedded
`FileTransfer` engine from the WebRTC module, the `WebRTCController`
session registry, and `SignalingConnection.getIceServers`. Byte buffers
are modelled as `List Nat`, JavaScript numbers as `Nat`/`Int` (with `ℚ`
for the `progress` ratios), and promises as an explicit settled
state plus outcome. Console logging and the per-direction candidate
tally diagnostics are elided; they affect no control flow. -/

-- String constants lifted from the source.
def emptyStr : String := ""
def spaceStr : String := " "
def octetStreamMime : String := "application/octet-stream"
def errAlreadyInProgress : String := "Partition read already in progress"
def errNegativeSize : String := "meta.size must be >= 0"
def errOversizedChunk : String := "Received chunk larger than expected remaining bytes"
def errDigestAborted : String := "File digest aborted"
def errSupersededHeader : String := "new file header arrived before previous file completed"
def typStr : String := "typ"
def hostType : String := "host"
def unknownType : String := "unknown"
def localSuffix : String := ".local"
def loopbackAddr : String := "127.0.0.1"
def googleStunUrl : String := "stun:stun.l.google.com:19302"

/-! FileChunker (send side of the chunk codec, src/services/files.ts).
The chunker only ever inspects the file through `file.slice(offset,
offset+chunkSize)`, whose byte length is `min chunkSize (fileLen -
offset)`, so the state machine is embedded over the file length alone;
`sliceBytes` recovers the actual bytes of an emitted chunk from its
(offset, length) descriptor. -/

def DEFAULT_CHUNK_SIZE_BYTES : Nat := 64000
def DEFAULT_MAX_PARTITION_SIZE_BYTES : Nat := 1000000

structure FileChunker where
  fileLen : Nat
  chunkSize : Nat
  maxPartitionSize : Nat
  offset : Nat
  partitionSize : Nat
  inProgress : Bool
deriving DecidableEq, Repr

def FileChunker.init (fileLen chunkSize maxPartitionSize : Nat) : FileChunker :=
  { fileLen := fileLen, chunkSize := chunkSize, maxPartitionSize := maxPartitionSize,
    offset := 0, partitionSize := 0, inProgress := false }

def FileChunker.isFileEnd (c : FileChunker) : Bool := c.fileLen ≤ c.offset

def FileChunker.isPartitionEnd (c : FileChunker) : Bool := c.maxPartitionSize ≤ c.partitionSize

def FileChunker.progress (c : FileChunker) : ℚ :=
  if c.fileLen = 0 then 1 else (c.offset : ℚ) / (c.fileLen : ℚ)

/-- The `while (!isFileEnd && !isPartitionEnd)` loop of `nextPartition`:
reads a chunk, breaks on an empty read, otherwise advances `offset` and
`partitionSize` and emits the chunk (as an (offset, length) descriptor).
Structural fuel stands in for the loop's termination; `fileLen - offset`
fuel always suffices. Returns (emitted descriptors, offset, partitionSize). -/
def chunkerLoop (fileLen chunkSize maxPartitionSize : Nat) :
    Nat → Nat → Nat → List (Nat × Nat) × Nat × Nat
  | offset, partSize, 0 => ([], offset, partSize)
  | offset, partSize, fuel + 1 =>
    if offset < fileLen ∧ partSize < maxPartitionSize then
      let len := min chunkSize (fileLen - offset)
      if len = 0 then ([], offset, partSize)
      else
        let r := chunkerLoop fileLen chunkSize maxPartitionSize (offset + len) (partSize + len) fuel
        ((offset, len) :: r.1, r.2)
    else ([], offset, partSize)

/-- `FileChunker.nextPartition`. Returns the emitted chunk descriptors, the
`onPartitionEnd` notification (if fired), the `{offset, fileEnd}` result
and the updated chunker; errors if a partition read is in progress. -/
def FileChunker.nextPartition (c : FileChunker) :
    Except String (List (Nat × Nat) × Option Nat × (Nat × Bool) × FileChunker) :=
  if c.inProgress then Except.error errAlreadyInProgress
  else if c.isFileEnd then Except.ok ([], Option.none, (c.offset, true), c)
  else
    let r := chunkerLoop c.fileLen c.chunkSize c.maxPartitionSize c.offset 0 (c.fileLen - c.offset)
    let c' : FileChunker := { c with offset := r.2.1, partitionSize := r.2.2 }
    let boundary : Option Nat :=
      if !c'.isFileEnd && c'.isPartitionEnd then Option.some r.2.1 else Option.none
    Except.ok (r.1, boundary, (r.2.1, c'.isFileEnd), c')

/-- Pumping loop of the transfer engine: `sendFile` runs `nextPartition`
once and every `partition-received` ack runs it again until `isFileEnd`
(`FileTransfer.sendNextPartition`). Collects all chunk descriptors and
all `partition` boundary notifications, in order. -/
def driveChunker : FileChunker → Nat → List (Nat × Nat) × List Nat × FileChunker
  | c, 0 => ([], [], c)
  | c, fuel + 1 =>
    match c.nextPartition with
    | Except.error _ => ([], [], c)
    | Except.ok (descs, boundary, (_, fileEnd), c') =>
      if fileEnd then (descs, boundary.toList, c')
      else
        let r := driveChunker c' fuel
        (descs ++ r.1, boundary.toList ++ r.2.1, r.2.2)

/-- Bytes of the chunk described by (offset, length), that is
`file.slice(offset, offset + length)`. -/
def sliceBytes (file : List Nat) (d : Nat × Nat) : List Nat := (file.drop d.1).take d.2

def chunkStream (file : List Nat) (descs : List (Nat × Nat)) : List (List Nat) :=
  descs.map (sliceBytes file)

/-! FileDigester (receive side of the chunk codec). The completion promise
is modelled by the `settled` flag together with a `DigestOutcome`. -/

structure FileMeta where
  size : Int
  mime : Option String
  name : String
deriving DecidableEq, Repr

structure ReceivedFile where
  name : String
  mime : String
  size : Int
  bytes : List Nat
deriving DecidableEq, Repr

inductive DigestOutcome where
  | pending
  | resolved (file : ReceivedFile)
  | rejected (reason : String)
deriving DecidableEq, Repr

structure FileDigester where
  name : String
  declaredSize : Int
  mime : String
  buffer : List (List Nat)
  bytesReceivedInternal : Nat
  settled : Bool
  outcome : DigestOutcome
deriving DecidableEq, Repr

def resolveMime (mime : Option String) : String :=
  match mime with
  | Option.some m => if 0 < m.length then m else octetStreamMime
  | Option.none => octetStreamMime

def FileDigester.complete (d : FileDigester) : FileDigester :=
  if d.settled then d
  else
    let rf : ReceivedFile :=
      { name := d.name, mime := d.mime, size := d.declaredSize, bytes := d.buffer.flatten }
    { d with settled := true, outcome := DigestOutcome.resolved rf }

def FileDigester.abort (d : FileDigester) (reason : String) : FileDigester :=
  if d.settled then d else { d with settled := true, outcome := DigestOutcome.rejected reason }

/-- The `FileDigester` constructor: throws when `meta.size < 0`, resolves
the mime default, and completes immediately for a declared size of 0. -/
def FileDigester.init (meta : FileMeta) : Except String FileDigester :=
  if meta.size < 0 then Except.error errNegativeSize
  else
    let d : FileDigester :=
      { name := meta.name, declaredSize := meta.size, mime := resolveMime meta.mime,
        buffer := [], bytesReceivedInternal := 0, settled := false,
        outcome := DigestOutcome.pending }
    if meta.size = 0 then Except.ok d.complete else Except.ok d

/-- The record built by the `FileDigester` constructor before the
zero-size early completion. -/
def freshDigester (meta : FileMeta) : FileDigester :=
  { name := meta.name, declaredSize := meta.size, mime := resolveMime meta.mime, buffer := [],
    bytesReceivedInternal := 0, settled := false, outcome := DigestOutcome.pending }

def FileDigester.unchunk (d : FileDigester) (chunk : List Nat) : FileDigester :=
  if d.settled then d
  else if chunk.length = 0 then d
  else if d.declaredSize - (d.bytesReceivedInternal : Int) ≤ 0 then d.complete
  else if d.declaredSize - (d.bytesReceivedInternal : Int) < (chunk.length : Int) then
    d.abort errOversizedChunk
  else
    let d' : FileDigester :=
      { d with buffer := d.buffer ++ [chunk],
               bytesReceivedInternal := d.bytesReceivedInternal + chunk.length }
    if (d'.bytesReceivedInternal : Int) = d.declaredSize then d'.complete else d'

def FileDigester.progress (d : FileDigester) : ℚ :=
  if d.declaredSize = 0 then 1 else (d.bytesReceivedInternal : ℚ) / (d.declaredSize : ℚ)

/-! Receive path of the embedded transfer engine (`FileTransfer`). Only the
header handler is needed by the claims: it resets the throttled progress
mark, aborts any pending digester as superseded, and then constructs the
new digester — whose constructor may throw, in which case the already
performed mutations persist and no new digester is installed. -/

structure TransferRecvState where
  digester : Option FileDigester
  lastProgress : ℚ
deriving DecidableEq, Repr

def FileTransfer.onFileHeader (st : TransferRecvState) (header : FileMeta) :
    TransferRecvState × Option String :=
  let st1 : TransferRecvState :=
    { digester := st.digester.map (fun d => d.abort errSupersededHeader), lastProgress := 0 }
  match FileDigester.init header with
  | Except.error e => (st1, Option.some e)
  | Except.ok d => ({ st1 with digester := Option.some d }, Option.none)

/-! SignalingConnection ICE-server resolution (`getIceServers` with the
three-mode policy, together with `defaultStunServer`). -/

inductive IceMode where
  | server
  | stun
  | none
deriving DecidableEq, Repr

structure IceServerInfo where
  urls : List String
  username : Option String
  credential : Option String
deriving DecidableEq, Repr

def defaultStunServer : IceServerInfo :=
  { urls := [googleStunUrl], username := Option.none, credential := Option.none }

/-- `SignalingConnection.getIceServers`, with `relayIceServers` the cached
`_iceServers` list supplied by the relay on HELLO. -/
def getIceServers (mode : IceMode) (relayIceServers : List IceServerInfo) : List IceServerInfo :=
  if mode = IceMode.none then []
  else if mode = IceMode.stun then [defaultStunServer]
  else if 0 < relayIceServers.length then relayIceServers
  else [defaultStunServer]

/-! Peer (ConnectionSession) candidate handling. A candidate is its
candidate SDP string; an end-of-candidates marker is `Option.none`. The
transport (`RTCPeerConnection`) is modelled by whether a remote
description has been set plus the ordered log of `addIceCandidate`
calls (`Option.none` logging an end-of-candidates application). The
per-direction type tallies and console logs are elided;
`addIceCandidate` failures (caught and logged in the source) are
modelled as successes. -/

def detectCandidateType (rawCandidate : String) : String :=
  if rawCandidate.length = 0 then unknownType
  else
    let parts := rawCandidate.splitOn spaceStr
    let typIndex := parts.indexOf typStr
    if parts.length ≤ typIndex + 1 then unknownType
    else
      let t := parts.getD (typIndex + 1) emptyStr
      if t.length = 0 then unknownType else t

def rewriteMdnsHostToLoopback (cand : String) : String :=
  if cand.length = 0 then cand
  else
    let parts := cand.splitOn spaceStr
    if parts.length < 8 then cand
    else
      let ctype := detectCandidateType cand
      let address := parts.getD 4 emptyStr
      if ctype = hostType ∧ address.endsWith localSuffix then
        String.intercalate spaceStr (parts.set 4 loopbackAddr)
      else cand

structure TransportModel where
  remoteDescriptionSet : Bool
  applied : List (Option String)
deriving DecidableEq, Repr

structure PeerModel where
  pc : Option TransportModel
  forceLoopbackHostCandidates : Bool
  pendingCandidates : List String
  pendingEndOfCandidates : Bool
deriving DecidableEq, Repr

def normalizeCandidate (forceLoopback : Bool) (c : String) : String :=
  if forceLoopback then rewriteMdnsHostToLoopback c else c

def Peer.HandleCandidate (p : PeerModel) (candidate : Option String) : PeerModel :=
  match p.pc with
  | Option.none => p
  | Option.some pc =>
    match candidate with
    | Option.none =>
      if pc.remoteDescriptionSet = false then { p with pendingEndOfCandidates := true }
      else { p with pc := Option.some { pc with applied := pc.applied ++ [Option.none] } }
    | Option.some c =>
      let normalized := normalizeCandidate p.forceLoopbackHostCandidates c
      if normalized.length = 0 then p
      else if pc.remoteDescriptionSet = false then
        { p with pendingCandidates := p.pendingCandidates ++ [normalized] }
      else
        { p with pc := Option.some { pc with applied := pc.applied ++ [Option.some normalized] } }

def Peer.flushPendingCandidates (p : PeerModel) : PeerModel :=
  match p.pc with
  | Option.none => p
  | Option.some pc =>
    if pc.remoteDescriptionSet = false then p
    else
      let applied' := pc.applied ++ p.pendingCandidates.map Option.some ++
        (if p.pendingEndOfCandidates then [Option.none] else [])
      { p with pc := Option.some { pc with applied := applied' },
               pendingCandidates := [],
               pendingEndOfCandidates := false }

/-- `Peer.HandleAnswer` restricted to what the claims need: with a
transport present, the remote description is set and the pending
candidates are flushed (the SDP content plays no role here). -/
def Peer.HandleAnswer (p : PeerModel) : PeerModel :=
  match p.pc with
  | Option.none => p
  | Option.some pc =>
    Peer.flushPendingCandidates { p with pc := Option.some { pc with remoteDescriptionSet := true } }

/-! ICE-restart policy. `restartsIssued` is not a source field: it logs how
many times `restartIce()` plus the ICE-restart offer were issued, so the
policy can be stated over whole event sequences. -/

inductive IceConnState where
  | new
  | checking
  | connected
  | completed
  | failed
  | disconnected
  | closed
deriving DecidableEq, Repr

inductive SignalingState where
  | stable
  | haveLocalOffer
  | haveRemoteOffer
  | haveLocalPranswer
  | haveRemotePranswer
  | closed
deriving DecidableEq, Repr

def maxIceRestartAttempts : Nat := 1

structure PeerIce where
  pcExists : Bool
  isCaller : Bool
  iceRestartAttempts : Nat
  restartsIssued : Nat
deriving DecidableEq, Repr

structure IceEvent where
  iceState : IceConnState
  signalingState : SignalingState
deriving DecidableEq, Repr

def Peer.tryIceRestart (p : PeerIce) (signalingState : SignalingState) : PeerIce :=
  if p.pcExists = false ∨ p.isCaller = false then p
  else if maxIceRestartAttempts ≤ p.iceRestartAttempts then p
  else if signalingState ≠ SignalingState.stable then p
  else { p with iceRestartAttempts := p.iceRestartAttempts + 1,
                restartsIssued := p.restartsIssued + 1 }

/-- The `oniceconnectionstatechange` observer: a `connected`/`completed`
transition resets the restart-attempt counter, and a `failed` transition
(and nothing else) invokes `tryIceRestart`, reading the transport's
signaling state at that moment from the event. -/
def Peer.onIceConnectionStateChange (p : PeerIce) (ev : IceEvent) : PeerIce :=
  let p1 :=
    if ev.iceState = IceConnState.connected ∨ ev.iceState = IceConnState.completed then
      { p with iceRestartAttempts := 0 }
    else p
  if ev.iceState = IceConnState.failed then Peer.tryIceRestart p1 ev.signalingState else p1

/-! WebRTCController (session registry) pieces needed by the claims: the
per-remote session registry with candidate routing, and the initiator
tie-break guard `connectPeer`. -/

inductive PeerStatus where
  | connected
  | notConnected
deriving DecidableEq, Repr

structure Controller where
  peerSessionById : List (String × String)
  peerConnections : List (String × PeerModel)
  peerConnectionState : List (String × PeerStatus)
deriving DecidableEq, Repr

structure CandidateMsg where
  peerId : String
  sessionId : String
  candidate : Option String
deriving DecidableEq, Repr

def updatePeerEntry (l : List (String × PeerModel)) (k : String) (v : PeerModel) :
    List (String × PeerModel) :=
  l.map (fun kv => if kv.1 = k then (kv.1, v) else kv)

/-- `WebRTCController.handleIncomingCandidate`: drops the message when the
carried sessionId is not the current session recorded for that remote id,
otherwise routes the candidate to that peer. -/
def WebRTCController.handleIncomingCandidate (ctrl : Controller) (msg : CandidateMsg) :
    Controller :=
  if ctrl.peerSessionById.lookup msg.peerId ≠ Option.some msg.sessionId then ctrl
  else
    match ctrl.peerConnections.lookup msg.peerId with
    | Option.none => ctrl
    | Option.some p =>
      { ctrl with peerConnections :=
          updatePeerEntry ctrl.peerConnections msg.peerId (Peer.HandleCandidate p msg.candidate) }

/-- JavaScript's `<` on strings: lexicographic comparison of the
character sequences. -/
def jsStringLt : List Char → List Char → Bool
  | [], [] => false
  | [], _ :: _ => true
  | _ :: _, [] => false
  | a :: as, b :: bs => if a < b then true else if b < a then false else jsStringLt as bs

/-- The guard of `WebRTCController.connectPeer`: the local side initiates
(becomes caller) exactly when both ids are non-empty (JS truthiness),
distinct, and the local id sorts strictly before the remote id. -/
def WebRTCController.connectPeerFires (myId peerId : String) : Bool :=
  decide (myId ≠ emptyStr) && decide (peerId ≠ emptyStr) &&
    decide (peerId ≠ myId) && jsStringLt myId.data peerId.data

/-! Concrete C2 scenario: a 2,500,000-byte file with the default chunk
size (64,000) and partition cap (1,000,000), exactly as
`FileTransfer.sendFile` constructs its chunker. -/

def c2Chunker : FileChunker := FileChunker.init 2500000 64000 1000000

def c2Run : List (Nat × Nat) × List Nat × FileChunker := driveChunker c2Chunker 2500001

/-- Total byte length of a list of chunks. -/
def sumLen (cs : List (List Nat)) : Nat := (cs.map List.length).sum

/-- Invariant of every reachable digester: while unsettled, the received
byte count is strictly below the declared size. -/
def DigInv (d : FileDigester) : Prop :=
  d.settled = false → (d.bytesReceivedInternal : Int) < d.declaredSize

/-- A full send-side run: the chunker built by `FileTransfer.sendFile` on a
file of the given length, pumped to end-of-file. -/
def c1Run (file : List Nat) (chunkSize maxPartitionSize : Nat) :
    List (Nat × Nat) × List Nat × FileChunker :=
  driveChunker (FileChunker.init file.length chunkSize maxPartitionSize) (file.length + 1)

-- Concrete objects used by witnesses and counterexamples.
def fileNameA : String := "report.pdf"
def fileNameB : String := "photo.png"
def idA : String := "alpha"
def idB : String := "beta"
def sessionX : String := "sessX"
def sessionY : String := "sessY"
def peerP1 : String := "p1"
def candFoo : String := "candidate:1 1 udp 2122260223 192.168.1.7 54321 typ host"
def mimePdf : String := "application/pdf"

def c7Peer : PeerModel :=
  { pc := Option.some { remoteDescriptionSet := false, applied := [] },
    forceLoopbackHostCandidates := false, pendingCandidates := [], pendingEndOfCandidates := false }

/-- A session whose transport exists, with no remote description yet and
empty candidate buffers. -/
def freshPeer (forceLoopback : Bool) (ap : List (Option String)) : PeerModel :=
  { pc := Option.some { remoteDescriptionSet := false, applied := ap },
    forceLoopbackHostCandidates := forceLoopback, pendingCandidates := [],
    pendingEndOfCandidates := false }

/-- The transport's applied-candidate log after a flush: the prior log,
then the buffered candidates in arrival order, then the buffered
end-of-candidates marker if one was pending. -/
def flushedApplied (fl : Bool) (ap : List (Option String)) (msgs : List (Option String)) :
    List (Option String) :=
  ap ++ ((msgs.filterMap id).map (normalizeCandidate fl)).map Option.some
    ++ (if msgs.contains Option.none = true then [Option.none] else [])

def c8Caller : PeerIce :=
  { pcExists := true, isCaller := true, iceRestartAttempts := 0, restartsIssued := 0 }

def c8Events : List IceEvent :=
  [{ iceState := IceConnState.failed, signalingState := SignalingState.stable },
   { iceState := IceConnState.connected, signalingState := SignalingState.stable },
   { iceState := IceConnState.failed, signalingState := SignalingState.stable }]

/-- Events on which the handler resets the ICE-restart attempt counter. -/
def iceResetEvent (ev : IceEvent) : Bool :=
  decide (ev.iceState = IceConnState.connected) || decide (ev.iceState = IceConnState.completed)

def c6Peer : PeerModel :=
  { pc := Option.some { remoteDescriptionSet := false, applied := [] },
    forceLoopbackHostCandidates := false, pendingCandidates := [], pendingEndOfCandidates := false }

def c6Ctrl : Controller :=
  { peerSessionById := [(peerP1, sessionY)],
    peerConnections := [(peerP1, c6Peer)],
    peerConnectionState := [(peerP1, PeerStatus.notConnected)] }

def c10PrevDigester : FileDigester :=
  { name := fileNameB, declaredSize := 5, mime := octetStreamMime, buffer := [],
    bytesReceivedInternal := 0, settled := false, outcome := DigestOutcome.pending }

def c10RecvState : TransferRecvState :=
  { digester := Option.some c10PrevDigester, lastProgress := 1 }

def c10BadHeader : FileMeta := { size := -1, mime := Option.none, name := fileNameA }

def c2Meta : FileMeta :=
  { size := 2500000, mime := Option.some mimePdf, name := fileNameA }

def relayTurnServer : IceServerInfo :=
  { urls := ["turn:turn.example.org:3478"], username := Option.some "u",
    credential := Option.some "s" }

/-! Lemmas about the chunker loop. -/

theorem chunkerLoop_le (fileLen chunkSize maxPartitionSize : Nat) :
    ∀ (fuel offset partSize : Nat), offset ≤ fileLen →
      offset ≤ (chunkerLoop fileLen chunkSize maxPartitionSize offset partSize fuel).2.1 ∧
      (chunkerLoop fileLen chunkSize maxPartitionSize offset partSize fuel).2.1 ≤ fileLen := by
  intro fuel
  induction fuel with
  | zero => intro offset partSize h; simp [chunkerLoop]; omega
  | succ f ih =>
    intro offset partSize h
    simp only [chunkerLoop]
    split
    · rename_i hcond
      split
      · simpa [chunkerLoop] using And.intro (le_refl offset) h
      · rename_i hlen
        have hmin : min chunkSize (fileLen - offset) ≤ fileLen - offset := Nat.min_le_right _ _
        have := ih (offset + min chunkSize (fileLen - offset)) (partSize + min chunkSize (fileLen - offset)) (by omega)
        simp only at this ⊢
        omega
    · simp; omega

theorem chunkerLoop_flatten (file : List Nat) (fileLen chunkSize maxPartitionSize : Nat) :
    ∀ (fuel offset partSize : Nat),
      (chunkStream file (chunkerLoop fileLen chunkSize maxPartitionSize offset partSize fuel).1).flatten
        ++ file.drop (chunkerLoop fileLen chunkSize maxPartitionSize offset partSize fuel).2.1
        = file.drop offset := by
  intro fuel
  induction fuel with
  | zero => intro offset partSize; simp [chunkerLoop, chunkStream]
  | succ f ih =>
    intro offset partSize
    simp only [chunkerLoop]
    split
    · split
      · simp [chunkStream]
      · rename_i hlen
        have h2 := ih (offset + min chunkSize (fileLen - offset)) (partSize + min chunkSize (fileLen - offset))
        simp only [chunkStream, List.map_cons, List.flatten_cons, List.append_assoc] at *
        rw [h2]
        simp only [sliceBytes]
        rw [← List.drop_drop]
        exact List.take_append_drop _ _
    · simp [chunkStream]

theorem chunkerLoop_descs (fileLen chunkSize maxPartitionSize : Nat) :
    ∀ (fuel offset partSize : Nat), offset ≤ fileLen →
      ∀ d ∈ (chunkerLoop fileLen chunkSize maxPartitionSize offset partSize fuel).1,
        0 < d.2 ∧ d.1 + d.2 ≤ fileLen := by
  intro fuel
  induction fuel with
  | zero => intro offset partSize h; simp [chunkerLoop]
  | succ f ih =>
    intro offset partSize h
    simp only [chunkerLoop]
    split
    · rename_i hcond
      split
      · simp
      · rename_i hlen
        intro d hd
        simp only [List.mem_cons] at hd
        rcases hd with hd | hd
        · subst hd
          constructor
          · omega
          · have : min chunkSize (fileLen - offset) ≤ fileLen - offset := Nat.min_le_right _ _
            omega
        · have : min chunkSize (fileLen - offset) ≤ fileLen - offset := Nat.min_le_right _ _
          exact ih (offset + min chunkSize (fileLen - offset)) (partSize + min chunkSize (fileLen - offset)) (by omega) d hd
    · simp

theorem chunkerLoop_exit (fileLen chunkSize maxPartitionSize : Nat) (hcs : 0 < chunkSize) :
    ∀ (fuel offset partSize : Nat), fileLen - offset ≤ fuel → offset ≤ fileLen →
      (chunkerLoop fileLen chunkSize maxPartitionSize offset partSize fuel).2.1 = fileLen ∨
      maxPartitionSize ≤ (chunkerLoop fileLen chunkSize maxPartitionSize offset partSize fuel).2.2 := by
  intro fuel
  induction fuel with
  | zero => intro offset partSize hf h; simp [chunkerLoop]; omega
  | succ f ih =>
    intro offset partSize hf h
    simp only [chunkerLoop]
    split
    · rename_i hcond
      split
      · rename_i hlen
        simp only
        omega
      · rename_i hlen
        have hmin : min chunkSize (fileLen - offset) ≤ fileLen - offset := Nat.min_le_right _ _
        exact ih (offset + min chunkSize (fileLen - offset)) (partSize + min chunkSize (fileLen - offset)) (by omega) (by omega)
    · rename_i hcond
      simp only
      omega

theorem chunkerLoop_moves (fileLen chunkSize maxPartitionSize : Nat) (hcs : 0 < chunkSize)
    (fuel offset partSize : Nat) (hoff : offset < fileLen) (hps : partSize < maxPartitionSize)
    (hfuel : 0 < fuel) :
    offset < (chunkerLoop fileLen chunkSize maxPartitionSize offset partSize fuel).2.1 := by
  obtain ⟨f, rfl⟩ : ∃ f, fuel = f + 1 := ⟨fuel - 1, by omega⟩
  simp only [chunkerLoop]
  rw [if_pos ⟨hoff, hps⟩]
  have hlen : ¬ (min chunkSize (fileLen - offset) = 0) := by
    simp only [Nat.min_eq_zero_iff]
    omega
  rw [if_neg hlen]
  simp only
  have := (chunkerLoop_le fileLen chunkSize maxPartitionSize f
    (offset + min chunkSize (fileLen - offset)) (partSize + min chunkSize (fileLen - offset))
    (by have : min chunkSize (fileLen - offset) ≤ fileLen - offset := Nat.min_le_right _ _; omega)).1
  omega

theorem driveChunker_spec (file : List Nat) :
    ∀ (fuel : Nat) (c : FileChunker), c.fileLen = file.length →
      0 < c.chunkSize → 0 < c.maxPartitionSize → c.inProgress = false →
      c.offset ≤ file.length → file.length - c.offset < fuel →
      (driveChunker c fuel).2.2.offset = file.length ∧
      (driveChunker c fuel).2.2.fileLen = file.length ∧
      (chunkStream file (driveChunker c fuel).1).flatten = file.drop c.offset ∧
      (∀ d ∈ (driveChunker c fuel).1, 0 < d.2 ∧ d.1 + d.2 ≤ file.length) := by
  intro fuel
  induction fuel with
  | zero => intro c h1 h2 h3 h4 h5 h6; omega
  | succ f ih =>
    intro c h1 h2 h3 h4 h5 h6
    by_cases hEnd : c.fileLen ≤ c.offset
    · have hoff : c.offset = file.length := by omega
      simp [driveChunker, FileChunker.nextPartition, h4, FileChunker.isFileEnd, hEnd, hoff,
        chunkStream, List.drop_length, h1]
    · have hoff : c.offset < file.length := by omega
      have hle := chunkerLoop_le c.fileLen c.chunkSize c.maxPartitionSize (c.fileLen - c.offset) c.offset 0 (by omega)
      have hfl := chunkerLoop_flatten file c.fileLen c.chunkSize c.maxPartitionSize (c.fileLen - c.offset) c.offset 0
      have hds := chunkerLoop_descs c.fileLen c.chunkSize c.maxPartitionSize (c.fileLen - c.offset) c.offset 0 (by omega)
      have hmv := chunkerLoop_moves c.fileLen c.chunkSize c.maxPartitionSize h2 (c.fileLen - c.offset) c.offset 0 (by omega) h3 (by omega)
      simp only [driveChunker, FileChunker.nextPartition, h4, FileChunker.isFileEnd, hEnd,
        decide_False, Bool.false_eq_true, if_false]
      by_cases hE2 : c.fileLen ≤ (chunkerLoop c.fileLen c.chunkSize c.maxPartitionSize c.offset 0 (c.fileLen - c.offset)).2.1
      · simp only [hE2, decide_True, if_true]
        refine ⟨by omega, h1, ?_, ?_⟩
        · have hR : (chunkerLoop c.fileLen c.chunkSize c.maxPartitionSize c.offset 0 (c.fileLen - c.offset)).2.1 = file.length := by omega
          rw [hR, List.drop_length, List.append_nil] at hfl
          exact hfl
        · intro d hd
          refine ⟨(hds d hd).1, ?_⟩
          rw [← h1]
          exact (hds d hd).2
      · simp only [hE2, decide_False, Bool.false_eq_true, if_false]
        set c2 : FileChunker := { fileLen := c.fileLen, chunkSize := c.chunkSize, maxPartitionSize := c.maxPartitionSize, offset := (chunkerLoop c.fileLen c.chunkSize c.maxPartitionSize c.offset 0 (c.fileLen - c.offset)).2.1, partitionSize := (chunkerLoop c.fileLen c.chunkSize c.maxPartitionSize c.offset 0 (c.fileLen - c.offset)).2.2, inProgress := false } with hc2
        have e1 : c2.offset = (chunkerLoop c.fileLen c.chunkSize c.maxPartitionSize c.offset 0 (c.fileLen - c.offset)).2.1 := rfl
        have IH := ih c2 h1 h2 h3 rfl (by rw [e1]; omega) (by rw [e1]; omega)
        refine ⟨IH.1, IH.2.1, ?_, ?_⟩
        · rw [chunkStream, List.map_append, List.flatten_append, ← chunkStream, ← chunkStream]
          rw [IH.2.2.1, e1]
          exact hfl
        · intro d hd
          rw [List.mem_append] at hd
          rcases hd with hd | hd
          · refine ⟨(hds d hd).1, ?_⟩
            rw [← h1]
            exact (hds d hd).2
          · exact IH.2.2.2 d hd

/-! Lemmas about the digester. -/

theorem unchunk_declaredSize (d : FileDigester) (c : List Nat) :
    (d.unchunk c).declaredSize = d.declaredSize := by
  simp only [FileDigester.unchunk, FileDigester.complete, FileDigester.abort]
  split_ifs <;> rfl

theorem foldl_unchunk_declaredSize :
    ∀ (cs : List (List Nat)) (d : FileDigester),
      (cs.foldl FileDigester.unchunk d).declaredSize = d.declaredSize := by
  intro cs
  induction cs with
  | nil => intro d; rfl
  | cons c rest ih =>
    intro d
    simp only [List.foldl_cons]
    rw [ih, unchunk_declaredSize]

theorem unchunk_settled (d : FileDigester) (c : List Nat) (h : d.settled = true) :
    d.unchunk c = d := by
  simp [FileDigester.unchunk, h]

theorem abort_settled (d : FileDigester) (r : String) (h : d.settled = true) :
    d.abort r = d := by
  simp [FileDigester.abort, h]

theorem unchunk_inv (d : FileDigester) (c : List Nat) (h : DigInv d) : DigInv (d.unchunk c) := by
  unfold DigInv at *
  simp only [FileDigester.unchunk, FileDigester.complete, FileDigester.abort]
  split_ifs <;> intro hs <;> simp_all
  omega

theorem foldl_unchunk_inv :
    ∀ (cs : List (List Nat)) (d : FileDigester), DigInv d →
      DigInv (cs.foldl FileDigester.unchunk d) := by
  intro cs
  induction cs with
  | nil => intro d h; exact h
  | cons c rest ih =>
    intro d h
    exact ih _ (unchunk_inv d c h)

theorem unchunk_step (d : FileDigester) (c : List Nat) (hset : d.settled = false)
    (hc : c ≠ []) (hrem : 0 < d.declaredSize - (d.bytesReceivedInternal : Int))
    (hfit : (c.length : Int) ≤ d.declaredSize - (d.bytesReceivedInternal : Int)) :
    d.unchunk c =
      if ((d.bytesReceivedInternal + c.length : Nat) : Int) = d.declaredSize
      then FileDigester.complete { d with buffer := d.buffer ++ [c], bytesReceivedInternal := d.bytesReceivedInternal + c.length }
      else { d with buffer := d.buffer ++ [c], bytesReceivedInternal := d.bytesReceivedInternal + c.length } := by
  have hc0 : ¬ c.length = 0 := by simpa using hc
  have hn1 : ¬ (d.declaredSize - (d.bytesReceivedInternal : Int) ≤ 0) := by omega
  have hn2 : ¬ (d.declaredSize - (d.bytesReceivedInternal : Int) < (c.length : Int)) := by omega
  simp [FileDigester.unchunk, hset, hc0, hn1, hn2]

theorem sumLen_nil_of_pos : ∀ (cs : List (List Nat)), (∀ c ∈ cs, c ≠ []) → sumLen cs = 0 → cs = [] := by
  intro cs h hs
  cases cs with
  | nil => rfl
  | cons c rest =>
    exfalso
    have hc : c ≠ [] := h c (by simp)
    have hlen : 0 < c.length := List.length_pos.mpr hc
    have hcons : sumLen (c :: rest) = c.length + sumLen rest := by simp [sumLen]
    omega

theorem unchunk_run :
    ∀ (cs : List (List Nat)) (d : FileDigester),
      d.settled = false →
      (∀ c ∈ cs, c ≠ []) →
      (d.bytesReceivedInternal : Int) < d.declaredSize →
      (d.bytesReceivedInternal : Int) + sumLen cs = d.declaredSize →
      (cs.foldl FileDigester.unchunk d).settled = true ∧
      (cs.foldl FileDigester.unchunk d).outcome = DigestOutcome.resolved
        { name := d.name, mime := d.mime, size := d.declaredSize,
          bytes := d.buffer.flatten ++ cs.flatten } ∧
      ((cs.foldl FileDigester.unchunk d).bytesReceivedInternal : Int) = d.declaredSize := by
  intro cs
  induction cs with
  | nil =>
    intro d hset hne hlt hsum
    exfalso
    simp [sumLen] at hsum
    omega
  | cons c rest ih =>
    intro d hset hne hlt hsum
    have hc : c ≠ [] := hne c (by simp)
    have hclen : 0 < c.length := List.length_pos.mpr hc
    have hrest : ∀ x ∈ rest, x ≠ [] := fun x hx => hne x (by simp [hx])
    have hsum' : (c.length : Int) + sumLen rest = d.declaredSize - d.bytesReceivedInternal := by
      simp [sumLen] at hsum ⊢
      omega
    have hsumrest : (0 : Int) ≤ sumLen rest := by positivity
    have hstep := unchunk_step d c hset hc (by omega) (by omega)
    simp only [List.foldl_cons]
    rw [hstep]
    by_cases hfull : ((d.bytesReceivedInternal + c.length : Nat) : Int) = d.declaredSize
    · rw [if_pos hfull]
      have hrest0 : sumLen rest = 0 := by push_cast at hfull hsum'; omega
      have : rest = [] := sumLen_nil_of_pos rest hrest hrest0
      subst this
      simp only [List.foldl_nil]
      constructor
      · simp [FileDigester.complete, hset]
      constructor
      · simp [FileDigester.complete, hset]
      · simp [FileDigester.complete, hset]
        push_cast at hfull ⊢
        omega
    · rw [if_neg hfull]
      have hlt' : ((d.bytesReceivedInternal + c.length : Nat) : Int) < d.declaredSize := by
        push_cast at hfull hsum' ⊢
        omega
      have IH := ih { d with buffer := d.buffer ++ [c], bytesReceivedInternal := d.bytesReceivedInternal + c.length }
        hset hrest hlt' (by simp [sumLen] at hsum' ⊢; omega)
      refine ⟨IH.1, ?_, IH.2.2⟩
      rw [IH.2.1]
      simp

theorem unchunk_run_partial :
    ∀ (cs : List (List Nat)) (d : FileDigester),
      d.settled = false →
      (∀ c ∈ cs, c ≠ []) →
      (d.bytesReceivedInternal : Int) + sumLen cs < d.declaredSize →
      (cs.foldl FileDigester.unchunk d).settled = false ∧
      (cs.foldl FileDigester.unchunk d).bytesReceivedInternal
        = d.bytesReceivedInternal + sumLen cs := by
  intro cs
  induction cs with
  | nil => intro d hset hne hlt; simpa [sumLen] using hset
  | cons c rest ih =>
    intro d hset hne hlt
    have hc : c ≠ [] := hne c (by simp)
    have hclen : 0 < c.length := List.length_pos.mpr hc
    have hrest : ∀ x ∈ rest, x ≠ [] := fun x hx => hne x (by simp [hx])
    have hsumrest : (0 : Int) ≤ sumLen rest := by positivity
    have hsum' : (d.bytesReceivedInternal : Int) + c.length + sumLen rest < d.declaredSize := by
      simp [sumLen] at hlt ⊢
      omega
    have hstep := unchunk_step d c hset hc (by omega) (by omega)
    simp only [List.foldl_cons]
    rw [hstep, if_neg (by push_cast; omega)]
    have IH := ih { d with buffer := d.buffer ++ [c], bytesReceivedInternal := d.bytesReceivedInternal + c.length }
      hset hrest (by push_cast; omega)
    refine ⟨IH.1, ?_⟩
    rw [IH.2]
    simp [sumLen]
    omega

/-! Constructor characterizations and the round-trip theorem. -/

theorem init_pos (meta : FileMeta) (h : 0 < meta.size) :
    FileDigester.init meta = Except.ok (freshDigester meta) := by
  unfold FileDigester.init freshDigester
  rw [if_neg (by omega), if_neg (by omega)]

theorem init_zero (meta : FileMeta) (h : meta.size = 0) :
    FileDigester.init meta = Except.ok (freshDigester meta).complete := by
  unfold FileDigester.init freshDigester
  rw [if_neg (by omega), if_pos h]

theorem freshDigester_complete (meta : FileMeta) :
    (freshDigester meta).complete =
      { name := meta.name, declaredSize := meta.size, mime := resolveMime meta.mime,
        buffer := [], bytesReceivedInternal := 0, settled := true,
        outcome := DigestOutcome.resolved
          { name := meta.name, mime := resolveMime meta.mime, size := meta.size, bytes := [] } } := by
  simp [freshDigester, FileDigester.complete]

theorem sliceBytes_length (file : List Nat) (d : Nat × Nat) (h : d.1 + d.2 ≤ file.length) :
    (sliceBytes file d).length = d.2 := by
  simp [sliceBytes, List.length_take, List.length_drop]
  omega

/-- C1: for every file and every positive chunk size and partition cap,
driving the chunker to end-of-file and feeding every emitted chunk into a
digester declared with the file's size completes the digest with exactly
the original bytes, and the chunker's final progress is 1. -/
theorem chunker_digester_roundtrip (file : List Nat) (chunkSize maxPartitionSize : Nat)
    (hcs : 0 < chunkSize) (hmp : 0 < maxPartitionSize)
    (mime : Option String) (name : String) (d0 : FileDigester)
    (h0 : FileDigester.init { size := (file.length : Int), mime := mime, name := name }
      = Except.ok d0) :
    ((chunkStream file (c1Run file chunkSize maxPartitionSize).1).foldl
        FileDigester.unchunk d0).settled = true ∧
    (∃ rf, ((chunkStream file (c1Run file chunkSize maxPartitionSize).1).foldl
        FileDigester.unchunk d0).outcome = DigestOutcome.resolved rf ∧ rf.bytes = file) ∧
    (c1Run file chunkSize maxPartitionSize).2.2.progress = 1 := by
  have hdrive := driveChunker_spec file (file.length + 1)
    (FileChunker.init file.length chunkSize maxPartitionSize) rfl hcs hmp rfl
    (by simp [FileChunker.init]) (by simp [FileChunker.init])
  rw [show driveChunker (FileChunker.init file.length chunkSize maxPartitionSize)
      (file.length + 1) = c1Run file chunkSize maxPartitionSize from rfl] at hdrive
  have hprog : (c1Run file chunkSize maxPartitionSize).2.2.progress = 1 := by
    unfold FileChunker.progress
    rw [hdrive.2.1, hdrive.1]
    by_cases hl : file.length = 0
    · simp [hl]
    · rw [if_neg hl]
      exact div_self (by exact_mod_cast hl)
  by_cases hl : file.length = 0
  · have hfile : file = [] := List.length_eq_zero.mp hl
    have hdescs : (c1Run file chunkSize maxPartitionSize).1 = [] := by
      cases hd : (c1Run file chunkSize maxPartitionSize).1 with
      | nil => rfl
      | cons a tl =>
        exfalso
        have := hdrive.2.2.2 a (by rw [hd]; simp)
        omega
    rw [init_zero _ (by simp [hl])] at h0
    have hd0 : d0 = (freshDigester { size := (file.length : Int), mime := mime, name := name }).complete := by
      injection h0 with h
      exact h.symm
    subst hd0
    rw [hdescs, freshDigester_complete]
    refine ⟨by simp [chunkStream], ⟨{ name := name, mime := resolveMime mime, size := (file.length : Int), bytes := [] }, by simp [chunkStream], ?_⟩, hprog⟩
    exact hfile.symm
  · have hpos : (0 : Int) < (file.length : Int) := by exact_mod_cast Nat.pos_of_ne_zero hl
    rw [init_pos _ (by simpa using hpos)] at h0
    have hd0 : d0 = freshDigester { size := (file.length : Int), mime := mime, name := name } := by
      injection h0 with h
      exact h.symm
    subst hd0
    have hflat : (chunkStream file (c1Run file chunkSize maxPartitionSize).1).flatten = file := by
      have := hdrive.2.2.1
      simpa using this
    have hne : ∀ c ∈ chunkStream file (c1Run file chunkSize maxPartitionSize).1, c ≠ [] := by
      intro c hc
      rw [chunkStream, List.mem_map] at hc
      obtain ⟨d, hd, rfl⟩ := hc
      have hb := hdrive.2.2.2 d hd
      have hlen : (sliceBytes file d).length = d.2 := sliceBytes_length file d hb.2
      intro hnil
      rw [hnil] at hlen
      simp at hlen
      omega
    have hsum : sumLen (chunkStream file (c1Run file chunkSize maxPartitionSize).1)
        = file.length := by
      have h' : sumLen (chunkStream file (c1Run file chunkSize maxPartitionSize).1)
          = (chunkStream file (c1Run file chunkSize maxPartitionSize).1).flatten.length := by
        rw [List.length_flatten, sumLen]
      rw [h', hflat]
    have hrun := unchunk_run (chunkStream file (c1Run file chunkSize maxPartitionSize).1)
      (freshDigester { size := (file.length : Int), mime := mime, name := name })
      rfl hne (by simp [freshDigester]; exact_mod_cast hpos) (by simp [freshDigester, hsum])
    refine ⟨hrun.1, ⟨_, hrun.2.1, ?_⟩, hprog⟩
    simp [freshDigester, hflat]

/-- Witness for C1 at the concrete file [1, 2, 3] with chunk size 2 and
partition cap 2. -/
theorem chunker_digester_roundtrip_witness :
    ((chunkStream [1, 2, 3] (c1Run [1, 2, 3] 2 2).1).foldl FileDigester.unchunk
        (freshDigester { size := 3, mime := Option.none, name := fileNameA })).settled = true ∧
    (∃ rf, ((chunkStream [1, 2, 3] (c1Run [1, 2, 3] 2 2).1).foldl FileDigester.unchunk
        (freshDigester { size := 3, mime := Option.none, name := fileNameA })).outcome
          = DigestOutcome.resolved rf ∧ rf.bytes = [1, 2, 3]) ∧
    (c1Run [1, 2, 3] 2 2).2.2.progress = 1 :=
  chunker_digester_roundtrip [1, 2, 3] 2 2 (by decide) (by decide) Option.none fileNameA
    (freshDigester { size := 3, mime := Option.none, name := fileNameA }) (by rfl)

/-- C4: a digester constructed with declared size 0 settles during
construction, resolving with an empty blob of size 0, and its progress
is 1, with no chunk ever exchanged. -/
theorem zero_size_digester (mime : Option String) (name : String) (d : FileDigester)
    (h : FileDigester.init { size := 0, mime := mime, name := name } = Except.ok d) :
    d.settled = true ∧
    (∃ rf, d.outcome = DigestOutcome.resolved rf ∧ rf.size = 0 ∧ rf.bytes = []) ∧
    d.progress = 1 := by
  rw [init_zero _ rfl] at h
  injection h with h
  rw [← h, freshDigester_complete]
  refine ⟨rfl, ⟨{ name := name, mime := resolveMime mime, size := 0, bytes := [] }, rfl, rfl, rfl⟩, ?_⟩
  simp [FileDigester.progress]

/-- Witness for C4 with no mime and a concrete name. -/
theorem zero_size_digester_witness :
    ((freshDigester { size := 0, mime := Option.none, name := fileNameA }).complete).settled = true ∧
    (∃ rf, ((freshDigester { size := 0, mime := Option.none, name := fileNameA }).complete).outcome
        = DigestOutcome.resolved rf ∧ rf.size = 0 ∧ rf.bytes = []) ∧
    ((freshDigester { size := 0, mime := Option.none, name := fileNameA }).complete).progress = 1 :=
  zero_size_digester Option.none fileNameA
    (freshDigester { size := 0, mime := Option.none, name := fileNameA }).complete (by rfl)

/-- C3: on a digester of positive declared size reached by any sequence of
unchunk calls, an unsettled digester rejects (settles with a rejection)
on any chunk exceeding the remaining expected bytes, and once settled,
every further unchunk or abort leaves the digester — state and settled
outcome — unchanged. -/
theorem digester_oversize_and_idempotent (S : Int) (mime : Option String) (name : String)
    (hS : 0 < S) (d0 : FileDigester)
    (h0 : FileDigester.init { size := S, mime := mime, name := name } = Except.ok d0)
    (chunks : List (List Nat)) :
    ((chunks.foldl FileDigester.unchunk d0).settled = false →
      ∀ c : List Nat,
        S - ((chunks.foldl FileDigester.unchunk d0).bytesReceivedInternal : Int) < (c.length : Int) →
        ((chunks.foldl FileDigester.unchunk d0).unchunk c).settled = true ∧
        ∃ e, ((chunks.foldl FileDigester.unchunk d0).unchunk c).outcome
          = DigestOutcome.rejected e) ∧
    ((chunks.foldl FileDigester.unchunk d0).settled = true →
      (∀ c : List Nat, (chunks.foldl FileDigester.unchunk d0).unchunk c
        = chunks.foldl FileDigester.unchunk d0) ∧
      (∀ r : String, (chunks.foldl FileDigester.unchunk d0).abort r
        = chunks.foldl FileDigester.unchunk d0)) := by
  rw [init_pos _ hS] at h0
  injection h0 with h0
  have hsize : (chunks.foldl FileDigester.unchunk d0).declaredSize = S := by
    rw [foldl_unchunk_declaredSize, ← h0, freshDigester]
  have hinv : DigInv (chunks.foldl FileDigester.unchunk d0) := by
    apply foldl_unchunk_inv
    rw [← h0]
    intro _
    simpa [freshDigester] using hS
  constructor
  · intro hset c hc
    have hlt : ((chunks.foldl FileDigester.unchunk d0).bytesReceivedInternal : Int) < S := by
      have := hinv hset
      omega
    have hcne : ¬ c.length = 0 := by
      intro h
      rw [h] at hc
      simp at hc
      omega
    have hn1 : ¬ ((chunks.foldl FileDigester.unchunk d0).declaredSize
        - ((chunks.foldl FileDigester.unchunk d0).bytesReceivedInternal : Int) ≤ 0) := by
      rw [hsize]
      omega
    have hn2 : (chunks.foldl FileDigester.unchunk d0).declaredSize
        - ((chunks.foldl FileDigester.unchunk d0).bytesReceivedInternal : Int)
        < (c.length : Int) := by
      rw [hsize]
      omega
    simp [FileDigester.unchunk, hset, hcne, hn1, hn2, FileDigester.abort]
  · intro hset
    exact ⟨fun c => unchunk_settled _ c hset, fun r => abort_settled _ r hset⟩

/-- Witness for C3: declared size 2, one 1-byte chunk received. -/
theorem digester_oversize_and_idempotent_witness :
    (([[7]].foldl FileDigester.unchunk (freshDigester { size := 2, mime := Option.none, name := fileNameB })).settled = false →
      ∀ c : List Nat,
        (2 : Int) - (([[7]].foldl FileDigester.unchunk (freshDigester { size := 2, mime := Option.none, name := fileNameB })).bytesReceivedInternal : Int) < (c.length : Int) →
        (([[7]].foldl FileDigester.unchunk (freshDigester { size := 2, mime := Option.none, name := fileNameB })).unchunk c).settled = true ∧
        ∃ e, (([[7]].foldl FileDigester.unchunk (freshDigester { size := 2, mime := Option.none, name := fileNameB })).unchunk c).outcome
          = DigestOutcome.rejected e) ∧
    (([[7]].foldl FileDigester.unchunk (freshDigester { size := 2, mime := Option.none, name := fileNameB })).settled = true →
      (∀ c : List Nat, ([[7]].foldl FileDigester.unchunk (freshDigester { size := 2, mime := Option.none, name := fileNameB })).unchunk c
        = [[7]].foldl FileDigester.unchunk (freshDigester { size := 2, mime := Option.none, name := fileNameB })) ∧
      (∀ r : String, ([[7]].foldl FileDigester.unchunk (freshDigester { size := 2, mime := Option.none, name := fileNameB })).abort r
        = [[7]].foldl FileDigester.unchunk (freshDigester { size := 2, mime := Option.none, name := fileNameB }))) :=
  digester_oversize_and_idempotent 2 Option.none fileNameB (by decide)
    (freshDigester { size := 2, mime := Option.none, name := fileNameB }) (by rfl) [[7]]

theorem sumLen_append (a b : List (List Nat)) : sumLen (a ++ b) = sumLen a + sumLen b := by
  simp [sumLen]

/-- C2 (counterexample): in the 2,500,000-byte scenario with chunk size
64,000 and partition cap 1,000,000 the sender emits exactly two
partition-boundary notifications — at offsets 1,024,000 and 2,048,000 —
and none at end-of-file, not the three the claim states. -/
theorem scenario_partitions_counterexample :
    c2Run.2.1 = [1024000, 2048000] ∧ c2Run.2.1.length ≠ 3 := by decide

/-- C2 (amended): the scenario sender emits exactly the two partition
boundaries [1024000, 2048000]; feeding the emitted chunk stream into the
receiver's digester settles it, resolved with exactly the original
2,500,000 bytes (the point at which transfer-complete is sent), and the
digester is still unsettled after every proper prefix of the chunk
stream, so the single transfer-complete can only follow the full
2,500,000 received bytes. -/
theorem scenario_transfer_amended (file : List Nat) (hf : file.length = 2500000)
    (d0 : FileDigester) (h0 : FileDigester.init c2Meta = Except.ok d0) :
    c2Run.2.1 = [1024000, 2048000] ∧
    ((chunkStream file c2Run.1).foldl FileDigester.unchunk d0).settled = true ∧
    (∃ rf, ((chunkStream file c2Run.1).foldl FileDigester.unchunk d0).outcome
        = DigestOutcome.resolved rf ∧ rf.bytes = file) ∧
    ((chunkStream file c2Run.1).foldl FileDigester.unchunk d0).bytesReceivedInternal = 2500000 ∧
    (∀ k, k < c2Run.1.length →
      (((chunkStream file c2Run.1).take k).foldl FileDigester.unchunk d0).settled = false) := by
  have hdrive := driveChunker_spec file 2500001 c2Chunker
    (by simp [c2Chunker, FileChunker.init, hf]) (by decide) (by decide) rfl
    (by simp [c2Chunker, FileChunker.init]) (by simp [c2Chunker, FileChunker.init]; omega)
  rw [show driveChunker c2Chunker 2500001 = c2Run from rfl] at hdrive
  have hflat : (chunkStream file c2Run.1).flatten = file := by
    have := hdrive.2.2.1
    simpa [c2Chunker, FileChunker.init] using this
  have hne : ∀ c ∈ chunkStream file c2Run.1, c ≠ [] := by
    intro c hc
    rw [chunkStream, List.mem_map] at hc
    obtain ⟨d, hd, rfl⟩ := hc
    have hb := hdrive.2.2.2 d hd
    have hlen : (sliceBytes file d).length = d.2 := sliceBytes_length file d hb.2
    intro hnil
    rw [hnil] at hlen
    simp at hlen
    omega
  have hsum : sumLen (chunkStream file c2Run.1) = 2500000 := by
    have h' : sumLen (chunkStream file c2Run.1) = (chunkStream file c2Run.1).flatten.length := by
      rw [List.length_flatten, sumLen]
    rw [h', hflat, hf]
  rw [init_pos _ (by decide)] at h0
  injection h0 with h0
  have hd0fields : d0.settled = false ∧ d0.bytesReceivedInternal = 0 ∧
      d0.declaredSize = 2500000 ∧ d0.buffer = [] := by
    rw [← h0]
    simp [freshDigester, c2Meta]
  have hrun := unchunk_run (chunkStream file c2Run.1) d0 hd0fields.1 hne
    (by rw [hd0fields.2.1, hd0fields.2.2.1]; decide)
    (by rw [hd0fields.2.1, hd0fields.2.2.1, hsum]; decide)
  refine ⟨by decide, hrun.1, ⟨_, hrun.2.1, ?_⟩, ?_, ?_⟩
  · rw [hd0fields.2.2.2]
    simp [hflat]
  · have := hrun.2.2
    rw [hd0fields.2.2.1] at this
    exact_mod_cast this
  · intro k hk
    have hklen : k < (chunkStream file c2Run.1).length := by
      simpa [chunkStream] using hk
    have hdropne : (chunkStream file c2Run.1).drop k ≠ [] := by
      intro hdk
      rw [List.drop_eq_nil_iff] at hdk
      omega
    have hdroppos : 0 < sumLen ((chunkStream file c2Run.1).drop k) := by
      cases hdk : (chunkStream file c2Run.1).drop k with
      | nil => exact absurd hdk hdropne
      | cons c rest =>
        have hcmem : c ∈ chunkStream file c2Run.1 := by
          have : c ∈ (chunkStream file c2Run.1).drop k := by rw [hdk]; simp
          exact List.mem_of_mem_drop this
        have hcne : c ≠ [] := hne c hcmem
        have : 0 < c.length := List.length_pos.mpr hcne
        have hcons : sumLen (c :: rest) = c.length + sumLen rest := by simp [sumLen]
        omega
    have hsplit : sumLen ((chunkStream file c2Run.1).take k)
        + sumLen ((chunkStream file c2Run.1).drop k) = 2500000 := by
      rw [← sumLen_append, List.take_append_drop, hsum]
    have hpart := unchunk_run_partial ((chunkStream file c2Run.1).take k) d0 hd0fields.1
      (fun c hc => hne c (List.mem_of_mem_take hc))
      (by rw [hd0fields.2.1, hd0fields.2.2.1]; push_cast; omega)
    exact hpart.1

/-- Witness for the amended C2 at the all-zero 2,500,000-byte file. -/
theorem scenario_transfer_amended_witness :
    c2Run.2.1 = [1024000, 2048000] ∧
    ((chunkStream (List.replicate 2500000 0) c2Run.1).foldl FileDigester.unchunk
        (freshDigester c2Meta)).settled = true ∧
    (∃ rf, ((chunkStream (List.replicate 2500000 0) c2Run.1).foldl FileDigester.unchunk
        (freshDigester c2Meta)).outcome = DigestOutcome.resolved rf
      ∧ rf.bytes = List.replicate 2500000 0) ∧
    ((chunkStream (List.replicate 2500000 0) c2Run.1).foldl FileDigester.unchunk
        (freshDigester c2Meta)).bytesReceivedInternal = 2500000 ∧
    (∀ k, k < c2Run.1.length →
      (((chunkStream (List.replicate 2500000 0) c2Run.1).take k).foldl FileDigester.unchunk
        (freshDigester c2Meta)).settled = false) :=
  scenario_transfer_amended (List.replicate 2500000 0) (by rw [List.length_replicate])
    (freshDigester c2Meta) (by rfl)

/-! Lemmas about the tie-break order. -/

theorem jsStringLt_asymm : ∀ as bs : List Char, jsStringLt as bs = true → jsStringLt bs as = false := by
  intro as
  induction as with
  | nil =>
    intro bs h
    cases bs with
    | nil => simp [jsStringLt] at h
    | cons b tl => simp [jsStringLt]
  | cons a as ih =>
    intro bs h
    cases bs with
    | nil => simp [jsStringLt] at h
    | cons b tl =>
      simp only [jsStringLt] at h ⊢
      by_cases hab : a < b
      · rw [if_neg (lt_asymm hab), if_pos hab]
      · by_cases hba : b < a
        · rw [if_neg hab, if_pos hba] at h
          exact absurd h (by simp)
        · rw [if_neg hab, if_neg hba] at h
          rw [if_neg hba, if_neg hab]
          exact ih tl h

theorem jsStringLt_total : ∀ as bs : List Char, as ≠ bs →
    jsStringLt as bs = true ∨ jsStringLt bs as = true := by
  intro as
  induction as with
  | nil =>
    intro bs h
    cases bs with
    | nil => exact absurd rfl h
    | cons b tl => left; simp [jsStringLt]
  | cons a as ih =>
    intro bs h
    cases bs with
    | nil => right; simp [jsStringLt]
    | cons b tl =>
      by_cases hab : a < b
      · left; simp [jsStringLt, hab]
      · by_cases hba : b < a
        · right; simp [jsStringLt, hba]
        · have hEq : a = b := le_antisymm (not_lt.mp hba) (not_lt.mp hab)
          subst hEq
          have htl : as ≠ tl := by intro he; exact h (by rw [he])
          rcases ih tl htl with h1 | h1
          · left; simp [jsStringLt, lt_irrefl, h1]
          · right; simp [jsStringLt, lt_irrefl, h1]

/-- C5 (counterexample): with the empty string as one of the two distinct
identities (the local id before HELLO assigns one), neither side's
connectPeer guard fires, so neither becomes caller — the claim's
"exactly one of A and B" fails. -/
theorem tiebreak_counterexample :
    emptyStr ≠ idB ∧
    WebRTCController.connectPeerFires emptyStr idB = false ∧
    WebRTCController.connectPeerFires idB emptyStr = false := by decide

/-- C5 (amended): for every pair of distinct NON-EMPTY identity strings,
applying the connectPeer tie-break guard on both sides makes exactly one
of the two the caller; the guard is a deterministic function of the two
ids. -/
theorem tiebreak_amended (a b : String) (ha : a ≠ emptyStr) (hb : b ≠ emptyStr) (hab : a ≠ b) :
    (WebRTCController.connectPeerFires a b = true
      ∧ WebRTCController.connectPeerFires b a = false) ∨
    (WebRTCController.connectPeerFires a b = false
      ∧ WebRTCController.connectPeerFires b a = true) := by
  have hdata : a.data ≠ b.data := by
    intro h
    apply hab
    cases a
    cases b
    exact congrArg String.mk (by simpa using h)
  rcases jsStringLt_total a.data b.data hdata with h1 | h1
  · left
    refine ⟨?_, ?_⟩
    · simp [WebRTCController.connectPeerFires, ha, hb, Ne.symm hab, hab, h1]
    · have h2 := jsStringLt_asymm a.data b.data h1
      simp [WebRTCController.connectPeerFires, h2]
  · right
    refine ⟨?_, ?_⟩
    · have h2 := jsStringLt_asymm b.data a.data h1
      simp [WebRTCController.connectPeerFires, h2]
    · simp [WebRTCController.connectPeerFires, ha, hb, Ne.symm hab, hab, h1]

/-- Witness for the amended C5 at the ids "alpha" and "beta". -/
theorem tiebreak_amended_witness :
    (WebRTCController.connectPeerFires idA idB = true
      ∧ WebRTCController.connectPeerFires idB idA = false) ∨
    (WebRTCController.connectPeerFires idA idB = false
      ∧ WebRTCController.connectPeerFires idB idA = true) :=
  tiebreak_amended idA idB (by decide) (by decide) (by decide)

/-! Lemmas about candidate buffering. -/

theorem handleCandidate_fold (fl : Bool) :
    ∀ (msgs : List (Option String)) (ap : List (Option String)) (q : List String) (b : Bool),
      (∀ c, Option.some c ∈ msgs → (normalizeCandidate fl c).length ≠ 0) →
      msgs.foldl Peer.HandleCandidate
        { pc := Option.some { remoteDescriptionSet := false, applied := ap },
          forceLoopbackHostCandidates := fl, pendingCandidates := q,
          pendingEndOfCandidates := b }
        = { pc := Option.some { remoteDescriptionSet := false, applied := ap },
            forceLoopbackHostCandidates := fl,
            pendingCandidates := q ++ (msgs.filterMap id).map (normalizeCandidate fl),
            pendingEndOfCandidates := b || msgs.contains Option.none } := by
  intro msgs
  induction msgs with
  | nil => intro ap q b h; simp
  | cons m ms ih =>
    intro ap q b h
    cases m with
    | none =>
      simp only [List.foldl_cons, Peer.HandleCandidate]
      rw [if_pos trivial]
      rw [ih ap q true (fun c hc => h c (List.mem_cons_of_mem _ hc))]
      simp
    | some c =>
      have hc : (normalizeCandidate fl c).length ≠ 0 := h c (by simp)
      simp only [List.foldl_cons, Peer.HandleCandidate]
      rw [if_neg hc, if_pos trivial]
      rw [ih ap (q ++ [normalizeCandidate fl c]) b (fun x hx => h x (List.mem_cons_of_mem _ hx))]
      simp

/-- C7 (counterexample): a candidate whose candidate string is empty,
delivered before the remote description, is ignored — it is neither
buffered nor ever applied after the remote description is set — so the
claim that ALL delivered candidates are buffered and applied fails. -/
theorem candidate_buffering_counterexample :
    ([Option.some emptyStr].foldl Peer.HandleCandidate c7Peer).pendingCandidates = [] ∧
    Peer.HandleAnswer ([Option.some emptyStr].foldl Peer.HandleCandidate c7Peer)
      = { pc := Option.some { remoteDescriptionSet := true, applied := [] },
          forceLoopbackHostCandidates := false, pendingCandidates := [],
          pendingEndOfCandidates := false } := by decide

/-- C7 (amended): on a session whose transport exists, every delivered
candidate whose (possibly loopback-rewritten) candidate string is
non-empty is buffered, in arrival order, while no remote description
exists (an end-of-candidates marker sets the pending flag); and setting
the remote description immediately flushes exactly those candidates to
the transport in their original arrival order, with the buffered
end-of-candidates marker applied last — none dropped, none reordered. -/
theorem candidate_buffering_amended (fl : Bool) (ap : List (Option String))
    (msgs : List (Option String))
    (h : ∀ c, Option.some c ∈ msgs → (normalizeCandidate fl c).length ≠ 0) :
    (msgs.foldl Peer.HandleCandidate (freshPeer fl ap)).pendingCandidates
      = (msgs.filterMap id).map (normalizeCandidate fl) ∧
    (msgs.foldl Peer.HandleCandidate (freshPeer fl ap)).pendingEndOfCandidates
      = msgs.contains Option.none ∧
    (msgs.foldl Peer.HandleCandidate (freshPeer fl ap)).pc
      = Option.some { remoteDescriptionSet := false, applied := ap } ∧
    Peer.HandleAnswer (msgs.foldl Peer.HandleCandidate (freshPeer fl ap))
      = { pc := Option.some { remoteDescriptionSet := true, applied := flushedApplied fl ap msgs },
          forceLoopbackHostCandidates := fl, pendingCandidates := [],
          pendingEndOfCandidates := false } := by
  have hfold := handleCandidate_fold fl msgs ap [] false h
  rw [show freshPeer fl ap = { pc := Option.some { remoteDescriptionSet := false, applied := ap }, forceLoopbackHostCandidates := fl, pendingCandidates := [], pendingEndOfCandidates := false } from rfl]
  rw [hfold]
  refine ⟨by simp, by simp, rfl, ?_⟩
  simp only [Peer.HandleAnswer, Peer.flushPendingCandidates, flushedApplied]
  simp

/-- Witness for the amended C7: one valid host candidate followed by an
end-of-candidates marker, no loopback rewriting. -/
theorem candidate_buffering_amended_witness :
    (([Option.some candFoo, Option.none].foldl Peer.HandleCandidate
        (freshPeer false [])).pendingCandidates
      = (([Option.some candFoo, Option.none].filterMap id).map (normalizeCandidate false))) ∧
    (([Option.some candFoo, Option.none].foldl Peer.HandleCandidate
        (freshPeer false [])).pendingEndOfCandidates
      = [Option.some candFoo, Option.none].contains Option.none) ∧
    (([Option.some candFoo, Option.none].foldl Peer.HandleCandidate
        (freshPeer false [])).pc
      = Option.some { remoteDescriptionSet := false, applied := [] }) ∧
    Peer.HandleAnswer ([Option.some candFoo, Option.none].foldl Peer.HandleCandidate
        (freshPeer false []))
      = { pc := Option.some { remoteDescriptionSet := true, applied := flushedApplied false [] [Option.some candFoo, Option.none] },
          forceLoopbackHostCandidates := false, pendingCandidates := [],
          pendingEndOfCandidates := false } :=
  candidate_buffering_amended false [] [Option.some candFoo, Option.none]
    (by intro c hc; simp at hc; subst hc; decide)

/-! Lemmas about the ICE-restart policy. -/

theorem iceRestart_step (p : PeerIce) (ev : IceEvent) :
    (Peer.onIceConnectionStateChange p ev).restartsIssued = p.restartsIssued ∨
    ((Peer.onIceConnectionStateChange p ev).restartsIssued = p.restartsIssued + 1 ∧
      p.pcExists = true ∧ p.isCaller = true ∧ ev.iceState = IceConnState.failed ∧
      ev.signalingState = SignalingState.stable ∧ p.iceRestartAttempts = 0) := by
  simp only [Peer.onIceConnectionStateChange, Peer.tryIceRestart, maxIceRestartAttempts]
  split_ifs <;> simp_all

theorem iceRestart_att_le (p : PeerIce) (ev : IceEvent) (h : p.iceRestartAttempts ≤ 1) :
    (Peer.onIceConnectionStateChange p ev).iceRestartAttempts ≤ 1 := by
  simp only [Peer.onIceConnectionStateChange, Peer.tryIceRestart, maxIceRestartAttempts]
  split_ifs <;> simp_all

theorem iceRestart_potential (p : PeerIce) (ev : IceEvent) (h : p.iceRestartAttempts ≤ 1) :
    (Peer.onIceConnectionStateChange p ev).restartsIssued
      + (1 - (Peer.onIceConnectionStateChange p ev).iceRestartAttempts)
    ≤ p.restartsIssued + (1 - p.iceRestartAttempts)
      + (if iceResetEvent ev = true then 1 else 0) := by
  simp only [Peer.onIceConnectionStateChange, Peer.tryIceRestart, maxIceRestartAttempts,
    iceResetEvent]
  split_ifs <;> simp_all

theorem iceRestart_noncaller_step (p : PeerIce) (ev : IceEvent) (h : p.isCaller = false) :
    (Peer.onIceConnectionStateChange p ev).restartsIssued = p.restartsIssued ∧
    (Peer.onIceConnectionStateChange p ev).isCaller = false := by
  simp only [Peer.onIceConnectionStateChange, Peer.tryIceRestart, maxIceRestartAttempts]
  split_ifs <;> simp_all

theorem iceRestart_fold_bound :
    ∀ (events : List IceEvent) (p : PeerIce), p.iceRestartAttempts ≤ 1 →
      (events.foldl Peer.onIceConnectionStateChange p).restartsIssued
        ≤ p.restartsIssued + (1 - p.iceRestartAttempts) + events.countP iceResetEvent := by
  intro events
  induction events with
  | nil => intro p h; simp
  | cons e es ih =>
    intro p h
    simp only [List.foldl_cons, List.countP_cons]
    have h1 := iceRestart_potential p e h
    have h2 := ih (Peer.onIceConnectionStateChange p e) (iceRestart_att_le p e h)
    by_cases hr : iceResetEvent e = true
    · rw [if_pos hr] at h1
      simp [hr]
      omega
    · rw [if_neg hr] at h1
      simp [hr]
      omega

theorem iceRestart_fold_noncaller :
    ∀ (events : List IceEvent) (p : PeerIce), p.isCaller = false →
      (events.foldl Peer.onIceConnectionStateChange p).restartsIssued = p.restartsIssued := by
  intro events
  induction events with
  | nil => intro p _; rfl
  | cons e es ih =>
    intro p h
    simp only [List.foldl_cons]
    have h1 := iceRestart_noncaller_step p e h
    rw [ih _ h1.2, h1.1]

/-- C8 (counterexample): a caller session sees ICE failed (restart one),
then ICE connected — which resets the attempt counter — then ICE failed
again (restart two): a single session issues two restart attempts over
its lifetime, refuting the at-most-one-per-lifetime part of the claim. -/
theorem ice_restart_counterexample :
    (c8Events.foldl Peer.onIceConnectionStateChange c8Caller).restartsIssued = 2 := by decide

/-- C8 (amended): a restart is issued only by the caller role, only in
reaction to an ICE failed transition while the transport's signaling
state is stable and the attempt counter is zero; a non-caller session
never issues one; and over any event sequence a session issues at most
one restart per failure episode — at most 1 plus the number of ICE
connected/completed transitions (which reset the attempt counter),
rather than at most one over its whole lifetime. -/
theorem ice_restart_policy_amended :
    (∀ (p : PeerIce) (ev : IceEvent),
      (Peer.onIceConnectionStateChange p ev).restartsIssued ≠ p.restartsIssued →
      (Peer.onIceConnectionStateChange p ev).restartsIssued = p.restartsIssued + 1 ∧
      p.pcExists = true ∧ p.isCaller = true ∧ ev.iceState = IceConnState.failed ∧
      ev.signalingState = SignalingState.stable ∧ p.iceRestartAttempts = 0) ∧
    (∀ (events : List IceEvent) (p : PeerIce), p.isCaller = false →
      (events.foldl Peer.onIceConnectionStateChange p).restartsIssued = p.restartsIssued) ∧
    (∀ (events : List IceEvent) (p : PeerIce), p.iceRestartAttempts = 0 →
      (events.foldl Peer.onIceConnectionStateChange p).restartsIssued
        ≤ p.restartsIssued + 1 + events.countP iceResetEvent) := by
  refine ⟨?_, iceRestart_fold_noncaller, ?_⟩
  · intro p ev hne
    rcases iceRestart_step p ev with h | h
    · exact absurd h hne
    · exact h
  · intro events p h0
    have := iceRestart_fold_bound events p (by omega)
    rw [h0] at this
    simpa using this

/-- Witness for the amended C8 on the concrete caller and event list. -/
theorem ice_restart_policy_amended_witness :
    (c8Events.foldl Peer.onIceConnectionStateChange c8Caller).restartsIssued
      ≤ c8Caller.restartsIssued + 1 + c8Events.countP iceResetEvent :=
  ice_restart_policy_amended.2.2 c8Events c8Caller (by decide)

/-- C9: ICE-server resolution — mode `none` yields no servers; mode
`stun` yields exactly the well-known public STUN server regardless of
what the relay supplied; mode `server` yields the relay-supplied list
when non-empty and falls back to the public STUN server otherwise. -/
theorem ice_servers_resolution (relay : List IceServerInfo) :
    getIceServers IceMode.none relay = [] ∧
    getIceServers IceMode.stun relay = [defaultStunServer] ∧
    (relay ≠ [] → getIceServers IceMode.server relay = relay) ∧
    (relay = [] → getIceServers IceMode.server relay = [defaultStunServer]) := by
  refine ⟨rfl, rfl, ?_, ?_⟩
  · intro h
    have : 0 < relay.length := List.length_pos.mpr h
    simp [getIceServers, this]
  · intro h
    subst h
    rfl

/-- Witness for C9: a relay-supplied TURN server is preferred in mode
`server`; an empty relay list falls back to the public STUN server. -/
theorem ice_servers_resolution_witness :
    getIceServers IceMode.server [relayTurnServer] = [relayTurnServer] ∧
    getIceServers IceMode.server [] = [defaultStunServer] ∧
    getIceServers IceMode.none [relayTurnServer] = [] ∧
    getIceServers IceMode.stun [relayTurnServer] = [defaultStunServer] :=
  ⟨(ice_servers_resolution [relayTurnServer]).2.2.1 (by decide),
   (ice_servers_resolution []).2.2.2 rfl,
   (ice_servers_resolution [relayTurnServer]).1,
   (ice_servers_resolution [relayTurnServer]).2.1⟩

/-- C10 (counterexample): an inbound header with size -1 arriving while a
previous digester is still pending makes the handler raise — but only
after it has already aborted the pending digester as superseded, so the
claim's "raise rather than create a digester OR ABORT A TRANSFER" fails:
a transfer is aborted. -/
theorem negative_header_counterexample :
    (FileTransfer.onFileHeader c10RecvState c10BadHeader).2 = Option.some errNegativeSize ∧
    (FileTransfer.onFileHeader c10RecvState c10BadHeader).1.digester
      = Option.some (c10PrevDigester.abort errSupersededHeader) ∧
    (c10PrevDigester.abort errSupersededHeader).settled = true ∧
    (c10PrevDigester.abort errSupersededHeader).outcome
      = DigestOutcome.rejected errSupersededHeader := by decide

/-- C10 (amended): the FileDigester constructor throws exactly when the
declared size is negative; a header with negative size makes the
receive-side header handler raise without installing any new digester —
though a prior pending digester has already been aborted as superseded
before the raise. -/
theorem negative_size_constructor_amended :
    (∀ meta : FileMeta, (∃ e, FileDigester.init meta = Except.error e) ↔ meta.size < 0) ∧
    (∀ (st : TransferRecvState) (header : FileMeta), header.size < 0 →
      (FileTransfer.onFileHeader st header).2 = Option.some errNegativeSize ∧
      (FileTransfer.onFileHeader st header).1.digester
        = st.digester.map (fun d => d.abort errSupersededHeader)) := by
  constructor
  · intro meta
    constructor
    · rintro ⟨e, he⟩
      by_contra h
      unfold FileDigester.init at he
      rw [if_neg h] at he
      split_ifs at he
    · intro h
      refine ⟨errNegativeSize, ?_⟩
      unfold FileDigester.init
      rw [if_pos h]
  · intro st header h
    have hinit : FileDigester.init header = Except.error errNegativeSize := by
      unfold FileDigester.init
      rw [if_pos h]
    simp [FileTransfer.onFileHeader, hinit]

/-- Witness for the amended C10 at the concrete negative-size header and
a pending receive state. -/
theorem negative_size_constructor_amended_witness :
    (FileTransfer.onFileHeader c10RecvState c10BadHeader).2 = Option.some errNegativeSize ∧
    (FileTransfer.onFileHeader c10RecvState c10BadHeader).1.digester
      = c10RecvState.digester.map (fun d => d.abort errSupersededHeader) :=
  negative_size_constructor_amended.2 c10RecvState c10BadHeader (by decide)

/-- C6: a CANDIDATE carrying sessionId X, arriving while the registry's
current session for that remote id is Y ≠ X, is dropped: the whole
controller state — including session Y's peer connection, its
pending-candidate buffer and the connection status — is left unchanged. -/
theorem stale_candidate_dropped (ctrl : Controller) (remoteId x y : String) (cand : Option String)
    (hy : ctrl.peerSessionById.lookup remoteId = Option.some y) (hxy : x ≠ y) :
    WebRTCController.handleIncomingCandidate ctrl
      { peerId := remoteId, sessionId := x, candidate := cand } = ctrl := by
  simp [WebRTCController.handleIncomingCandidate, hy, Ne.symm hxy]

/-- Witness for C6: one registered session "sessY" for peer "p1"; a
candidate for stale session "sessX" leaves the controller unchanged. -/
theorem stale_candidate_dropped_witness :
    WebRTCController.handleIncomingCandidate c6Ctrl
      { peerId := peerP1, sessionId := sessionX, candidate := Option.some candFoo } = c6Ctrl :=
  stale_candidate_dropped c6Ctrl peerP1 sessionX sessionY (Option.some candFoo)
    (by decide) (by decide)
